import Mathlib

/-!
Shallow embedding of the kurento-health-monitor supervisor (src/server.js)
and proofs of the spec claims about it.

The embedding models the per-host dedup-flag machines, the registry, the
reconnection-timer bookkeeping, the startup retry chain, the healthcheck
probe and the webhook notifier, each translated from the corresponding
function of src/server.js.
-/

set_option autoImplicit false

namespace KHM

/-- Alert event names carried in the webhook text (src/server.js). -/
inductive Alert
  | startupConnectFailure
  | startupConnectSuccess
  | mediaServerOffline
  | mediaServerOnline
  | wsConnUnhealthy
  | wsConnHealthy
  deriving DecidableEq, Repr

/-! ### Per-host failureNotified machine (src/server.js:469-544) -/

/-- Result of one monitor event handler acting on the `failureNotified`
flag of a host: the new flag value, the alerts emitted, and whether the
handler raised an uncaught exception. -/
structure FlagStep where
  flag : Bool
  alerts : List Alert
  threw : Bool
  deriving DecidableEq, Repr

/-- Embedding of `Monitor._onDisconnection` (src/server.js:469-491)
restricted to its `failureNotified` / alert effect: if the flag is clear,
emit MEDIA_SERVER_OFFLINE and set it; otherwise emit nothing. The body is
wrapped in try/catch, so the handler never throws. -/
def onDisconnectionFlag (failureNotified : Bool) : FlagStep :=
  if failureNotified then
    { flag := true, alerts := [], threw := false }
  else
    { flag := true, alerts := [Alert.mediaServerOffline], threw := false }

/-- Embedding of `Monitor._onReconnection` (src/server.js:493-503). With
`sameSession = false` it delegates to `_onDisconnection`. With
`sameSession = true` and the flag set, the template literal of the alert
text reads the module-level `url` binding (the Node url module, not the
host url) and the identifier `ip`, which is bound nowhere in scope, so
evaluating the argument throws a ReferenceError before `emitHookWarning`
is invoked and before `host.failureNotified = false` runs: no alert is
emitted and the flag keeps its value. With the flag clear the branch body
is skipped entirely. -/
def onReconnectionFlag (sameSession : Bool) (failureNotified : Bool) : FlagStep :=
  if !sameSession then
    onDisconnectionFlag failureNotified
  else if failureNotified then
    { flag := failureNotified, alerts := [], threw := true }
  else
    { flag := failureNotified, alerts := [], threw := false }

/-- Embedding of the `.then` continuation of a successful reconnection
tick (src/server.js:525-535) restricted to its flag / alert effect: if
`failureNotified` is set, emit MEDIA_SERVER_ONLINE (with the host url and
ip, lines 531-534) and clear it. -/
def reconnectSuccessFlag (failureNotified : Bool) : FlagStep :=
  if failureNotified then
    { flag := false, alerts := [Alert.mediaServerOnline], threw := false }
  else
    { flag := false, alerts := [], threw := false }

/-- Events delivered to one host object by the client handle and the
reconnection loop. -/
inductive HostEvent
  | disconnect
  | reconnected (sameSession : Bool)
  | reconnectTickSuccess
  | reconnectTickFailure
  deriving DecidableEq, Repr

/-- One scheduler turn of the per-host flag machine. -/
def hostStep (flag : Bool) : HostEvent → FlagStep
  | HostEvent.disconnect => onDisconnectionFlag flag
  | HostEvent.reconnected s => onReconnectionFlag s flag
  | HostEvent.reconnectTickSuccess => reconnectSuccessFlag flag
  | HostEvent.reconnectTickFailure => { flag := flag, alerts := [], threw := false }

/-- Run of the per-host flag machine over an event trace, collecting the
emitted alerts in order. -/
def hostRun (flag : Bool) : List HostEvent → Bool × List Alert
  | [] => (flag, [])
  | e :: es =>
    let r := hostStep flag e
    let rest := hostRun r.flag es
    (rest.1, r.alerts ++ rest.2)

/-- Scan of an alert stream checking the OFFLINE / ONLINE alternation:
`outstanding` records whether an OFFLINE alert is pending without a later
ONLINE. Returns `none` exactly when two OFFLINE alerts occur with no
ONLINE in between, else `some` of the final outstanding state. -/
def offlineAlternation (outstanding : Bool) : List Alert → Option Bool
  | [] => some outstanding
  | Alert.mediaServerOffline :: rest =>
    if outstanding then none else offlineAlternation true rest
  | Alert.mediaServerOnline :: rest => offlineAlternation false rest
  | _ :: rest => offlineAlternation outstanding rest

/-! ### Reconnection timers (src/server.js:505-544) -/

/-- An active `setInterval` timer of the reconnection loop: its runtime
handle and the id of the host it reconnects. -/
structure Timer where
  handle : Nat
  hostId : String
  deriving DecidableEq, Repr

/-- State of the reconnection machinery: the live interval timers, the
`_reconnectionRoutine` association from host id to timer handle, and a
fresh-handle counter. -/
structure TimerState where
  timers : List Timer
  routine : List (String × Nat)
  nextHandle : Nat
  deriving DecidableEq, Repr

/-- Lookup in the `_reconnectionRoutine` object. -/
def routineLookup (m : List (String × Nat)) (id : String) : Option Nat :=
  (m.find? (fun p => p.1 == id)).map Prod.snd

/-- Deletion of a key of the `_reconnectionRoutine` object
(`delete this._reconnectionRoutine[id]`). -/
def routineErase (m : List (String × Nat)) (id : String) : List (String × Nat) :=
  m.filter (fun p => p.1 != id)

/-- Embedding of `Monitor._reconnectToServer` (src/server.js:505-544)
restricted to timer bookkeeping: if `_reconnectionRoutine[id]` is unset,
create a fresh interval timer and record it under `id`; otherwise do
nothing. The presence check and the `setInterval` call run in the same
synchronous body. -/
def reconnectToServer (s : TimerState) (id : String) : TimerState :=
  if routineLookup s.routine id = none then
    { timers := { handle := s.nextHandle, hostId := id } :: s.timers,
      routine := (id, s.nextHandle) :: s.routine,
      nextHandle := s.nextHandle + 1 }
  else s

/-- Timer bookkeeping of a successful reconnection tick continuation
(src/server.js:527-528): `clearInterval(this._reconnectionRoutine[id])`
followed by `delete this._reconnectionRoutine[id]`. When the routine
entry is already gone (an overlapping tick settled first), both
operations are no-ops. -/
def reconnectTickCleanup (s : TimerState) (id : String) : TimerState :=
  match routineLookup s.routine id with
  | some t =>
    { timers := s.timers.filter (fun tm => tm.handle != t),
      routine := routineErase s.routine id,
      nextHandle := s.nextHandle }
  | none => s

/-- Scheduler turns touching the reconnection timers. -/
inductive TimerEvent
  | startLoop (id : String)
  | tickSuccess (id : String)
  | tickFailure (id : String)
  deriving DecidableEq, Repr

/-- One scheduler turn of the timer machinery. A failed tick
(src/server.js:536-541) changes no timer state. -/
def timerStep (s : TimerState) : TimerEvent → TimerState
  | TimerEvent.startLoop id => reconnectToServer s id
  | TimerEvent.tickSuccess id => reconnectTickCleanup s id
  | TimerEvent.tickFailure _ => s

/-- Initial timer state (constructor, src/server.js:289-297). -/
def timerInit : TimerState :=
  { timers := [], routine := [], nextHandle := 0 }

/-- Run of the timer machinery over a trace of scheduler turns. -/
def timerRun (es : List TimerEvent) : TimerState :=
  es.foldl timerStep timerInit

/-- Invariant tying the live timers to the `_reconnectionRoutine` map. -/
def TimerInv (s : TimerState) : Prop :=
  (∀ tm ∈ s.timers, routineLookup s.routine tm.hostId = some tm.handle) ∧
  (∀ tm ∈ s.timers, tm.handle < s.nextHandle) ∧
  (s.timers.map Timer.handle).Nodup

/-! ### Host registry (src/server.js:433-451) -/

/-- Host descriptor from the configuration (a `KMS_ARRAY` entry): url
and ip. -/
structure Desc where
  url : String
  ip : String
  deriving DecidableEq, Repr

/-- Embedding of `Monitor.removeHost` (src/server.js:445-447): filter the
registry by id. Registry entries are modelled as (id, descriptor). -/
def removeHost (reg : List (Nat × Desc)) (hostId : Nat) : List (Nat × Desc) :=
  reg.filter (fun h => h.1 != hostId)

/-- Embedding of `Monitor.addHost` (src/server.js:433-443): remove any
entry with the incoming id, then push the host at the end. -/
def addHost (reg : List (Nat × Desc)) (host : Nat × Desc) : List (Nat × Desc) :=
  removeHost reg host.1 ++ [host]

/-- Embedding of `Monitor._hostStarted` (src/server.js:449-451). -/
def hostStarted (reg : List (Nat × Desc)) (u ip : String) : Bool :=
  reg.any (fun h => h.2.url == u && h.2.ip == ip)

/-- Registry operations: `this.hosts` is mutated only by `addHost` and
`removeHost`. -/
inductive RegOp
  | add (host : Nat × Desc)
  | remove (hostId : Nat)
  deriving DecidableEq, Repr

/-- Application of one registry operation. -/
def regApply (reg : List (Nat × Desc)) : RegOp → List (Nat × Desc)
  | RegOp.add h => addHost reg h
  | RegOp.remove i => removeHost reg i

/-! ### Startup connection chain (src/server.js:304-345) -/

/-- A tentative host of `startHosts`: a `KMS_ARRAY` entry spread together
with a retry counter (initially 0). `startupFailureNotified` is absent on
a fresh entry, hence falsy, modelled as `false`. -/
structure TentativeHost where
  url : String
  ip : String
  retries : Nat
  startupFailureNotified : Bool
  deriving DecidableEq, Repr

/-- Embedding of one startup chain `tryToConnect` (src/server.js:306-335).
The connect collaborator is abstracted as an oracle from the current retry
count to success or failure of the raced `connectToHost`; `hostStarted`
abstracts the `_hostStarted` registry check (constant here: the scenario
of the claim keeps the registry disjoint from this chain). `maxRetries`
is `NOF_STARTUP_CONNECTION_RETRIES`. Returns the final host record, the
number of connect attempts performed, and the alerts emitted in order.
On a failed attempt the code increments `retries`, emits
STARTUP_CONNECT_FAILURE only if `startupFailureNotified` is clear (then
sets it), and schedules the next `tryToConnect`; once
`retries < maxRetries` fails it only logs and stops. -/
def tryToConnect (maxRetries : Nat) (connectSucceeds : Nat → Bool)
    (started : Bool) (h : TentativeHost) :
    TentativeHost × Nat × List Alert :=
  if hlt : h.retries < maxRetries then
    if started then (h, 0, [])
    else if connectSucceeds h.retries then
      if h.startupFailureNotified then
        ({ h with startupFailureNotified := false }, 1, [Alert.startupConnectSuccess])
      else (h, 1, [])
    else
      let fired : List Alert :=
        if h.startupFailureNotified then [] else [Alert.startupConnectFailure]
      let rest := tryToConnect maxRetries connectSucceeds started
        { h with retries := h.retries + 1, startupFailureNotified := true }
      (rest.1, 1 + rest.2.1, fired ++ rest.2.2)
  else (h, 0, [])
termination_by maxRetries - h.retries
decreasing_by omega

/-! ### Healthcheck ticks (src/server.js:559-580) -/

/-- Settlement of one `probeConnectionHealth` awaited by a healthcheck
tick. -/
inductive ProbeResult
  | ok
  | fail
  deriving DecidableEq, Repr

/-- Embedding of one healthcheck interval tick (src/server.js:563-579)
acting on `healthcheckFailureNotified`: on success, if the flag is set,
clear it and emit WS_CONN_HEALTHY; on failure, if the flag is clear, emit
WS_CONN_UNHEALTHY and set it. -/
def healthTick (healthcheckFailureNotified : Bool) : ProbeResult → Bool × List Alert
  | ProbeResult.ok =>
    if healthcheckFailureNotified then (false, [Alert.wsConnHealthy])
    else (healthcheckFailureNotified, [])
  | ProbeResult.fail =>
    if !healthcheckFailureNotified then (true, [Alert.wsConnUnhealthy])
    else (healthcheckFailureNotified, [])

/-- Run of the healthcheck over a sequence of probe settlements. -/
def healthRun (flag : Bool) : List ProbeResult → Bool × List Alert
  | [] => (flag, [])
  | r :: rs =>
    let t := healthTick flag r
    let rest := healthRun t.1 rs
    (rest.1, t.2 ++ rest.2)

/-! ### Connection health probe (src/server.js:375-431) -/

/-- Settlement of the WebSocket handshake phase. The ws option
`handshakeTimeout: KMS_FAILOVER_TIMEOUT_MS` (line 377) guarantees that
within the failover timeout the socket either opens, or emits an error,
or closes before opening. -/
inductive HandshakeEv
  | opened
  | errored
  | closedEarly
  deriving DecidableEq, Repr

/-- A websocket event observed after `open`: a parsed message frame with
its jsonrpc id and whether `result.value` equals the pong marker, a close,
or a transport error. -/
inductive WsEv
  | message (id : Nat) (pong : Bool)
  | closeEv
  | errorEv
  deriving DecidableEq, Repr

/-- Settlement status of the probe promise. -/
inductive ProbeOutcome
  | resolved
  | rejected
  | pending
  deriving DecidableEq, Repr

/-- Observable result of one probe: the promise settlement and whether
`ws.close()` was called (`destroyWs`). -/
structure ProbeRes where
  outcome : ProbeOutcome
  wsClosed : Bool
  deriving DecidableEq, Repr

/-- Message loop of `probeConnectionHealth` after `open`
(src/server.js:397-418): the ping carries id 1; a message resolves only
when its id matches and the result value is the pong marker (then the
listeners are removed and the socket destroyed); any other message is
ignored; a close or error settles by rejection and destroys the socket.
When the event stream ends with no settlement the promise stays pending
and the socket stays open: the code installs no pong timeout. -/
def probeLoop : List WsEv → ProbeRes
  | [] => { outcome := ProbeOutcome.pending, wsClosed := false }
  | WsEv.message i pong :: rest =>
    if i == 1 && pong then { outcome := ProbeOutcome.resolved, wsClosed := true }
    else probeLoop rest
  | WsEv.closeEv :: _ => { outcome := ProbeOutcome.rejected, wsClosed := true }
  | WsEv.errorEv :: _ => { outcome := ProbeOutcome.rejected, wsClosed := true }

/-- Embedding of `Monitor.probeConnectionHealth` (src/server.js:375-431)
as a function of the websocket behaviour of the environment: the
handshake settlement followed by the post-open events. An error or a
premature close rejects and destroys the socket (`onError`, `onClose`). -/
def probeConnectionHealth (hs : HandshakeEv) (evs : List WsEv) : ProbeRes :=
  match hs with
  | HandshakeEv.opened => probeLoop evs
  | HandshakeEv.errored => { outcome := ProbeOutcome.rejected, wsClosed := true }
  | HandshakeEv.closedEarly => { outcome := ProbeOutcome.rejected, wsClosed := true }

/-! ### Webhook notifier (src/server.js:546-557) -/

/-- Behaviour of the webhook delivery collaborator for one alert. -/
inductive DeliveryOutcome
  | delivered
  | failed
  deriving DecidableEq, Repr

/-- Observable effect of one `emitHookWarning` call: what its caller sees
in the calling scheduler turn (normal return, requests issued, retries
scheduled, exception into the calling frame) and what the runtime sees
afterwards (whether an `error` event was raised with no listener
attached, and whether the process survives the delivery under the
default runtime policy for such an event). -/
structure NotifyEffect where
  returnedNormally : Bool
  requestsIssued : Nat
  retriesScheduled : Nat
  raisedToCaller : Bool
  unhandledError : Bool
  processAlive : Bool
  deriving DecidableEq, Repr

/-- Embedding of `Monitor.emitHookWarning` (src/server.js:546-557): parse
the webhook URL, set headers and method, log, issue exactly one POST via
`http.request(...).end(body)` and return. Only a response callback is
attached (line 554); no `error` listener is installed and no retry is
scheduled, so nothing is thrown into the calling frame in either
outcome. On delivery success the callback logs. On delivery failure the
request object emits an `error` event with no listener, which the
runtime raises as an uncaught exception after the caller has returned;
under the default Node policy this terminates the process. -/
def emitHookWarning (_text : String) (outcome : DeliveryOutcome) : NotifyEffect :=
  match outcome with
  | DeliveryOutcome.delivered =>
    { returnedNormally := true, requestsIssued := 1, retriesScheduled := 0,
      raisedToCaller := false, unhandledError := false, processAlive := true }
  | DeliveryOutcome.failed =>
    { returnedNormally := true, requestsIssued := 1, retriesScheduled := 0,
      raisedToCaller := false, unhandledError := true, processAlive := false }

/-- Embedding of the alert branch of `Monitor._onDisconnection`
(src/server.js:474-481) with the delivery outcome explicit: the
`emitHookWarning` call is fire-and-forget inside a try/catch and
`host.failureNotified = true` executes after it unconditionally within
the same scheduler turn, before the delivery settles; the delivery
outcome influences neither the flag update nor the emitted alert list
(an eventual unhandled delivery error strikes only later turns). -/
def onDisconnectionFlagDelivery (flag : Bool) (outcome : DeliveryOutcome) :
    FlagStep × Option NotifyEffect :=
  if flag then (onDisconnectionFlag flag, none)
  else (onDisconnectionFlag flag, some (emitHookWarning "MEDIA_SERVER_OFFLINE" outcome))

/-! ### Connect-versus-timeout races (src/server.js:347-373, 505-544) -/

/-- Mutable fields of a host object touched by the reconnection race. -/
structure RaceHost where
  id : Nat
  client : Nat
  failureNotified : Bool
  deriving DecidableEq, Repr

/-- Effect of the reconnection tick connect callback
(src/server.js:511-519) firing after the failover timeout already won the
race: `resolve` and `reject` on the settled race promise are inert and
the `.then` continuation (registry, timer, alert effects) never runs, but
on success the assignment `host.client = client` in the callback body
still executes before the inert `resolve(host)`. -/
def lateReconnectCallback (h : RaceHost) (err : Bool) (newClient : Nat) : RaceHost :=
  if err then h else { h with client := newClient }

/-- Effect of the startup connect callback (`Monitor.connect`,
src/server.js:347-365) firing after the timeout already won: on error it
closes the fresh client handle; on success it builds a fresh host object
and resolves the settled promise, which is inert. No existing host or
supervisor state is referenced or mutated. -/
def lateStartupCallback (h : RaceHost) (_err : Bool) (_newClient : Nat) : RaceHost :=
  h

/-- Effect of the failover timeout firing after connect already won
(either race, src/server.js:368-372 and 521-523): `reject` on a settled
promise, which is inert. -/
def lateTimeout (h : RaceHost) : RaceHost :=
  h

/-! ### Global interleaving model of the supervisor (src/server.js:304-345,
469-544)

Each scheduler turn of the cooperative runtime is one event. The
synchronous prefix of a startup `tryToConnect` (the retry guard and the
`_hostStarted` check, which happen before the `await`) is a separate turn
from the settlement of the raced connect, which is where the registry is
mutated. Host ids are generated by `greatRandomToken` and are modelled by
a fresh counter (per the identity contract: unique per registration). -/

/-- Status of the startup chain of one configured descriptor. -/
inductive ChainSt
  | idle (retries : Nat)
  | connecting (retries : Nat)
  | done
  deriving DecidableEq, Repr

/-- Global supervisor state: the registry (`this.hosts`), the startup
chain of each configured descriptor, every host object created so far
(with monitors attached), the active reconnection routines (host id with
the descriptor of that host object), and the fresh-id counter. -/
structure MState where
  reg : List (Nat × Desc)
  chains : List (Desc × ChainSt)
  objs : List (Nat × Desc)
  loops : List (Nat × Desc)
  nextId : Nat
  deriving DecidableEq, Repr

/-- Replacement of the chain status at position `k`, keeping the
descriptor. -/
def setChain : List (Desc × ChainSt) → Nat → ChainSt → List (Desc × ChainSt)
  | [], _, _ => []
  | p :: rest, 0, c => (p.1, c) :: rest
  | p :: rest, Nat.succ k, c => p :: setChain rest k c

/-- Scheduler turns of the global model. -/
inductive MEvent
  | attempt (k : Nat)
  | connectOk (k : Nat)
  | connectFail (k : Nat)
  | disconnect (hostId : Nat)
  | loopTickOk (hostId : Nat)
  | loopTickFail (hostId : Nat)
  deriving DecidableEq, Repr

/-- One scheduler turn of the global model.

`attempt k` runs the synchronous prefix of `tryToConnect`
(src/server.js:306-335): the retry-bound guard, then the `_hostStarted`
presence check; passing both suspends the chain on the raced connect.
`connectOk k` is the successful settlement of `Monitor.connectToHost`:
`_monitorConnectionState(newHost)` then `addHost(newHost)` with a fresh
id (lines 311-313). `connectFail k` increments the retry counter and
schedules the next `tryToConnect` (lines 322-330). `disconnect id` is
`_onDisconnection` of the host object `id` (lines 469-491): `removeHost`,
then `_reconnectToServer`, which creates a loop entry only when none is
present for `id`. `loopTickOk id` is the successful reconnection tick
continuation (lines 525-535): clear and delete the routine, then
`addHost` of the same host object. A failed tick changes nothing. -/
def mStep (maxRetries : Nat) (s : MState) : MEvent → MState
  | MEvent.attempt k =>
    match s.chains.get? k with
    | some (d, ChainSt.idle r) =>
      if r < maxRetries then
        if hostStarted s.reg d.url d.ip then
          { s with chains := setChain s.chains k ChainSt.done }
        else
          { s with chains := setChain s.chains k (ChainSt.connecting r) }
      else
        { s with chains := setChain s.chains k ChainSt.done }
    | _ => s
  | MEvent.connectOk k =>
    match s.chains.get? k with
    | some (d, ChainSt.connecting _) =>
      { s with
        reg := addHost s.reg (s.nextId, d),
        objs := (s.nextId, d) :: s.objs,
        chains := setChain s.chains k ChainSt.done,
        nextId := s.nextId + 1 }
    | _ => s
  | MEvent.connectFail k =>
    match s.chains.get? k with
    | some (_, ChainSt.connecting r) =>
      { s with chains := setChain s.chains k (ChainSt.idle (r + 1)) }
    | _ => s
  | MEvent.disconnect id =>
    match s.objs.find? (fun o => o.1 == id) with
    | some (_, d) =>
      let s1 := { s with reg := removeHost s.reg id }
      if (s1.loops.find? (fun l => l.1 == id)).isNone then
        { s1 with loops := (id, d) :: s1.loops }
      else s1
    | none => s
  | MEvent.loopTickOk id =>
    match s.loops.find? (fun l => l.1 == id) with
    | some (_, d) =>
      { s with
        loops := s.loops.filter (fun l => l.1 != id),
        reg := addHost s.reg (id, d) }
    | none => s
  | MEvent.loopTickFail _ => s

/-- Initial global state for a configured descriptor list
(src/server.js:289-297 and 337-341). -/
def mInit (cfg : List Desc) : MState :=
  { reg := [], chains := cfg.map (fun d => (d, ChainSt.idle 0)),
    objs := [], loops := [], nextId := 0 }

/-- Run of the global model over a trace of scheduler turns. -/
def mRun (maxRetries : Nat) (cfg : List Desc) (es : List MEvent) : MState :=
  es.foldl (mStep maxRetries) (mInit cfg)

/-- Number of entries of an (id, descriptor) list carrying the
descriptor `d`. -/
def countD (l : List (Nat × Desc)) (d : Desc) : Nat :=
  l.countP (fun h => h.2 == d)

/-- Inductive invariant of the global model (under a duplicate-free
configuration): registry and loop entries are host objects, ids are
unique in each component, at most one host object exists per descriptor,
a descriptor has no host object while its startup chain has not finished,
per descriptor the registry and loop entries together never exceed the
host objects, and the configured descriptors are pairwise distinct. -/
structure MInv (s : MState) : Prop where
  idBound : ∀ o ∈ s.objs, o.1 < s.nextId
  objsNd : (s.objs.map Prod.fst).Nodup
  regSub : ∀ e ∈ s.reg, e ∈ s.objs
  loopSub : ∀ l ∈ s.loops, l ∈ s.objs
  regNd : (s.reg.map Prod.fst).Nodup
  loopNd : (s.loops.map Prod.fst).Nodup
  objsOne : ∀ d, countD s.objs d ≤ 1
  countLe : ∀ d, countD s.reg d + countD s.loops d ≤ countD s.objs d
  chainFresh : ∀ k d c, s.chains.get? k = some (d, c) → c ≠ ChainSt.done →
    countD s.objs d = 0
  cfgNd : (s.chains.map Prod.fst).Nodup

/-! ## Theorems -/

/-- Running the per-host machine keeps the OFFLINE / ONLINE alternation
scan in step with the `failureNotified` flag. -/
theorem offlineAlternation_hostRun (es : List HostEvent) :
    ∀ flag : Bool,
      offlineAlternation flag (hostRun flag es).2 = some (hostRun flag es).1 := by
  induction es with
  | nil => intro flag; rfl
  | cons e es ih =>
    intro flag
    cases e with
    | disconnect =>
      cases flag <;>
        simp [hostRun, hostStep, onDisconnectionFlag, offlineAlternation, ih]
    | reconnected s =>
      cases s <;> cases flag <;>
        simp [hostRun, hostStep, onReconnectionFlag, onDisconnectionFlag,
          offlineAlternation, ih]
    | reconnectTickSuccess =>
      cases flag <;>
        simp [hostRun, hostStep, reconnectSuccessFlag, offlineAlternation, ih]
    | reconnectTickFailure =>
      cases flag <;> simp [hostRun, hostStep, offlineAlternation, ih]

/-- C1: MEDIA_SERVER_OFFLINE is emitted by a handler only when
`failureNotified` transitions false to true, MEDIA_SERVER_ONLINE only
when it transitions true to false, no alert is emitted when the flag does
not change, and over every disconnect/reconnect trace from a fresh host
no two OFFLINE alerts occur without an ONLINE between them. -/
theorem c1_offline_online_edge_triggered :
    (∀ (flag : Bool) (e : HostEvent),
      (Alert.mediaServerOffline ∈ (hostStep flag e).alerts →
        flag = false ∧ (hostStep flag e).flag = true) ∧
      (Alert.mediaServerOnline ∈ (hostStep flag e).alerts →
        flag = true ∧ (hostStep flag e).flag = false) ∧
      ((hostStep flag e).flag = flag → (hostStep flag e).alerts = [])) ∧
    (∀ es : List HostEvent,
      offlineAlternation false (hostRun false es).2 ≠ none) := by
  constructor
  · intro flag e
    rcases e with _ | s | _ | _
    · cases flag <;> decide
    · cases s <;> cases flag <;> decide
    · cases flag <;> decide
    · cases flag <;> decide
  · intro es
    rw [offlineAlternation_hostRun es false]
    exact Option.some_ne_none _

/-- Witness for C1 at a concrete trace and a concrete edge. -/
theorem c1_offline_online_edge_triggered_witness :
    (false = false ∧ (hostStep false HostEvent.disconnect).flag = true) ∧
    offlineAlternation false
      (hostRun false [HostEvent.disconnect, HostEvent.reconnectTickSuccess,
        HostEvent.disconnect]).2 ≠ none :=
  ⟨(c1_offline_online_edge_triggered.1 false HostEvent.disconnect).1 (by decide),
    c1_offline_online_edge_triggered.2
      [HostEvent.disconnect, HostEvent.reconnectTickSuccess, HostEvent.disconnect]⟩

/-- C3: on a reconnect event with `sameSession = true` while
`failureNotified` is set, `_onReconnection` throws (the alert text
references the undefined identifier `ip`): no MEDIA_SERVER_ONLINE alert
is emitted and the flag stays set, contrary to the claim. -/
theorem c3_reconnection_same_session_throws :
    onReconnectionFlag true true =
      { flag := true, alerts := [], threw := true } := by
  decide

/-- C4: with `maxStartupRetries = 2` and an always-failing connect
collaborator, the startup chain performs exactly 2 connect attempts and
emits exactly one STARTUP_CONNECT_FAILURE alert. -/
theorem c4_two_retries_single_startup_failure :
    tryToConnect 2 (fun _ => false) false
      { url := "u", ip := "i", retries := 0, startupFailureNotified := false } =
      ({ url := "u", ip := "i", retries := 2, startupFailureNotified := true },
        2, [Alert.startupConnectFailure]) := by
  simp [tryToConnect]

/-- Splitting a healthcheck run over an appended settlement list. -/
theorem healthRun_append (xs ys : List ProbeResult) : ∀ flag : Bool,
    healthRun flag (xs ++ ys) =
      ((healthRun (healthRun flag xs).1 ys).1,
        (healthRun flag xs).2 ++ (healthRun (healthRun flag xs).1 ys).2) := by
  induction xs with
  | nil => intro flag; simp [healthRun]
  | cons x xs ih => intro flag; simp [healthRun, ih]

/-- A healthcheck run over failures only, starting notified, emits
nothing and stays notified. -/
theorem healthRun_fail_notified (n : Nat) :
    healthRun true (List.replicate n ProbeResult.fail) = (true, []) := by
  induction n with
  | zero => rfl
  | succ n ih => simp [List.replicate, healthRun, healthTick, ih]

/-- C6: with the probe enabled, any run of N ≥ 1 consecutive probe
failures from a healthy flag emits exactly one WS_CONN_UNHEALTHY (already
on the first failure), the first success after such a run emits exactly
one WS_CONN_HEALTHY, and a success with the flag clear emits nothing. -/
theorem c6_probe_failure_run_single_alerts (n : Nat) :
    healthRun false (List.replicate (n + 1) ProbeResult.fail) =
      (true, [Alert.wsConnUnhealthy]) ∧
    healthTick false ProbeResult.fail = (true, [Alert.wsConnUnhealthy]) ∧
    healthRun false (List.replicate (n + 1) ProbeResult.fail ++ [ProbeResult.ok]) =
      (false, [Alert.wsConnUnhealthy, Alert.wsConnHealthy]) ∧
    healthTick false ProbeResult.ok = (false, []) := by
  have hfail : healthRun false (List.replicate (n + 1) ProbeResult.fail) =
      (true, [Alert.wsConnUnhealthy]) := by
    simp [List.replicate, healthRun, healthTick, healthRun_fail_notified n]
  refine ⟨hfail, by decide, ?_, by decide⟩
  rw [healthRun_append, hfail]
  simp [healthRun, healthTick]

/-- The probe message loop resolves only after a matching pong frame. -/
theorem probeLoop_resolved_pong (evs : List WsEv) :
    (probeLoop evs).outcome = ProbeOutcome.resolved → WsEv.message 1 true ∈ evs := by
  induction evs with
  | nil => exact fun h => absurd h (by decide)
  | cons e rest ih =>
    cases e with
    | message i pong =>
      simp only [probeLoop]
      by_cases hm : (i == 1 && pong) = true
      · rw [if_pos hm]
        intro _
        have hi : i = 1 ∧ pong = true := by simpa using hm
        rw [hi.1, hi.2]
        exact List.mem_cons_self _ _
      · rw [if_neg hm]
        exact fun h => List.mem_cons_of_mem _ (ih h)
    | closeEv => exact fun h => absurd h (by simp [probeLoop])
    | errorEv => exact fun h => absurd h (by simp [probeLoop])

/-- The probe message loop settles exactly when it destroys the socket. -/
theorem probeLoop_closed_iff (evs : List WsEv) :
    ((probeLoop evs).outcome ≠ ProbeOutcome.pending ↔
      (probeLoop evs).wsClosed = true) := by
  induction evs with
  | nil => decide
  | cons e rest ih =>
    cases e with
    | message i pong =>
      simp only [probeLoop]
      by_cases hm : (i == 1 && pong) = true
      · rw [if_pos hm]; decide
      · rw [if_neg hm]; exact ih
    | closeEv => simp [probeLoop]
    | errorEv => simp [probeLoop]

/-- The probe message loop rejects only after a close or error event. -/
theorem probeLoop_rejected_cases (evs : List WsEv) :
    (probeLoop evs).outcome = ProbeOutcome.rejected →
      WsEv.closeEv ∈ evs ∨ WsEv.errorEv ∈ evs := by
  induction evs with
  | nil => exact fun h => absurd h (by decide)
  | cons e rest ih =>
    cases e with
    | message i pong =>
      simp only [probeLoop]
      by_cases hm : (i == 1 && pong) = true
      · rw [if_pos hm]; exact fun h => absurd h (by simp)
      · rw [if_neg hm]
        intro h
        rcases ih h with hc | he
        · exact Or.inl (List.mem_cons_of_mem _ hc)
        · exact Or.inr (List.mem_cons_of_mem _ he)
    | closeEv => exact fun _ => Or.inl (List.mem_cons_self _ _)
    | errorEv => exact fun _ => Or.inr (List.mem_cons_self _ _)

/-- C7 counterexample: a probe whose side channel opens and then receives
no matching pong, no error and no close never settles (no pong timeout
exists in the code) and never closes the side channel — against the
claimed settlement within the failover timeout and the claimed close in
every outcome. -/
theorem c7_probe_never_settles_counterexample :
    (probeConnectionHealth HandshakeEv.opened []).outcome = ProbeOutcome.pending ∧
    (probeConnectionHealth HandshakeEv.opened []).wsClosed = false := by
  decide

/-- C7 amended: the probe resolves only on a matching pong, rejects on a
transport error or premature close (and on any handshake failure, which
the handshake timeout bounds by the failover timeout), and closes the
side channel exactly when it settles; after a successful open with no
matching pong it may stay pending forever with the socket open. -/
theorem c7_probe_settlement_amended (hs : HandshakeEv) (evs : List WsEv) :
    ((probeConnectionHealth hs evs).outcome = ProbeOutcome.resolved →
      hs = HandshakeEv.opened ∧ WsEv.message 1 true ∈ evs) ∧
    ((probeConnectionHealth hs evs).outcome ≠ ProbeOutcome.pending ↔
      (probeConnectionHealth hs evs).wsClosed = true) ∧
    (hs ≠ HandshakeEv.opened →
      probeConnectionHealth hs evs =
        { outcome := ProbeOutcome.rejected, wsClosed := true }) ∧
    (hs = HandshakeEv.opened →
      (probeConnectionHealth hs evs).outcome = ProbeOutcome.rejected →
        WsEv.closeEv ∈ evs ∨ WsEv.errorEv ∈ evs) := by
  cases hs with
  | opened =>
    exact ⟨fun h => ⟨rfl, probeLoop_resolved_pong evs h⟩,
      probeLoop_closed_iff evs,
      fun h => absurd rfl h,
      fun _ => probeLoop_rejected_cases evs⟩
  | errored =>
    exact ⟨fun h => absurd h (by simp [probeConnectionHealth]),
      by simp [probeConnectionHealth],
      fun _ => rfl, fun h => absurd h (by simp)⟩
  | closedEarly =>
    exact ⟨fun h => absurd h (by simp [probeConnectionHealth]),
      by simp [probeConnectionHealth],
      fun _ => rfl, fun h => absurd h (by simp)⟩

/-- Witness for the amended C7 at a concrete resolving and a concrete
rejecting behaviour. -/
theorem c7_probe_settlement_amended_witness :
    (HandshakeEv.opened = HandshakeEv.opened ∧
      WsEv.message 1 true ∈ [WsEv.message 1 true]) ∧
    probeConnectionHealth HandshakeEv.errored [] =
      { outcome := ProbeOutcome.rejected, wsClosed := true } :=
  ⟨(c7_probe_settlement_amended HandshakeEv.opened [WsEv.message 1 true]).1
      (by decide),
    (c7_probe_settlement_amended HandshakeEv.errored []).2.2.1 (by decide)⟩

/-- C8 counterexample: a delivery failure raises an `error` event with no
listener attached — an uncaught exception that terminates the process
under the default runtime policy, blocking every later supervisory state
mutation — against the claim that a delivery failure never blocks or
aborts any supervisory state mutation (and against the logged-and-ignored
behaviour: the code logs only the success callback). -/
theorem c8_delivery_failure_crash_counterexample :
    (emitHookWarning "MEDIA_SERVER_OFFLINE" DeliveryOutcome.failed).unhandledError
        = true ∧
    (emitHookWarning "MEDIA_SERVER_OFFLINE" DeliveryOutcome.failed).processAlive
        = false := by
  decide

/-- C8 amended: for every alert text and every delivery outcome the
notify operation returns normally in its own turn — exactly one request,
no retry, nothing thrown into the calling frame — and the supervisory
flag mutation of the disconnect handler, made in the same turn, does not
depend on the delivery outcome; however the process outlives the
delivery exactly when it succeeds: a failure raises an unhandled `error`
event after return, which under the default runtime policy terminates
the process and with it all later supervisory operation. -/
theorem c8_notify_fire_and_forget_amended (t : String) (o : DeliveryOutcome)
    (flag : Bool) :
    (emitHookWarning t o).returnedNormally = true ∧
    (emitHookWarning t o).requestsIssued = 1 ∧
    (emitHookWarning t o).retriesScheduled = 0 ∧
    (emitHookWarning t o).raisedToCaller = false ∧
    (onDisconnectionFlagDelivery flag o).1 = onDisconnectionFlag flag ∧
    ((emitHookWarning t o).processAlive = false ↔ o = DeliveryOutcome.failed) := by
  cases o <;> cases flag <;>
    first
      | exact ⟨rfl, rfl, rfl, rfl, rfl,
          Iff.intro (fun h => Bool.noConfusion h)
            (fun h => DeliveryOutcome.noConfusion h)⟩
      | exact ⟨rfl, rfl, rfl, rfl, rfl,
          Iff.intro (fun _ => rfl) (fun _ => rfl)⟩

/-- Witness for the amended C8 at a concrete text and both outcomes. -/
theorem c8_notify_fire_and_forget_amended_witness :
    (emitHookWarning "x" DeliveryOutcome.delivered).returnedNormally = true ∧
    (emitHookWarning "x" DeliveryOutcome.failed).processAlive = false :=
  ⟨(c8_notify_fire_and_forget_amended "x" DeliveryOutcome.delivered false).1,
    (c8_notify_fire_and_forget_amended "x" DeliveryOutcome.failed
      false).2.2.2.2.2.mpr rfl⟩

/-- C9 counterexample: in the reconnection loop, a connect success firing
after the failover timeout has already won still overwrites the host
client handle — against the claim that the losing branch mutates no host
state. -/
theorem c9_late_success_overwrites_client :
    lateReconnectCallback { id := 0, client := 7, failureNotified := true } false 9 ≠
      { id := 0, client := 7, failureNotified := true } := by
  decide

/-- C9 amended: a late timeout after a settled race undoes nothing, a
late startup connect result mutates no existing state, and a late
reconnection connect result leaves id, flag (and, via the never-run then
continuation, registry, timers and alerts) untouched — but on success it
overwrites the host client handle; only a late reconnection error is
fully inert. -/
theorem c9_losing_branch_effects (h : RaceHost) (err : Bool) (c : Nat) :
    lateTimeout h = h ∧
    lateStartupCallback h err c = h ∧
    (lateReconnectCallback h err c).id = h.id ∧
    (lateReconnectCallback h err c).failureNotified = h.failureNotified ∧
    (err = true → lateReconnectCallback h err c = h) := by
  cases err
  · exact ⟨rfl, rfl, rfl, rfl, fun hc => Bool.noConfusion hc⟩
  · exact ⟨rfl, rfl, rfl, rfl, fun _ => rfl⟩

/-- Witness for the amended C9 at a concrete host and a late erroring
connect. -/
theorem c9_losing_branch_effects_witness :
    lateReconnectCallback { id := 0, client := 7, failureNotified := false } true 9 =
      { id := 0, client := 7, failureNotified := false } :=
  (c9_losing_branch_effects
    { id := 0, client := 7, failureNotified := false } true 9).2.2.2.2 rfl

/-- Lookup after inserting a fresh key at the front of the routine map. -/
theorem routineLookup_cons (id x : String) (t : Nat) (m : List (String × Nat)) :
    routineLookup ((id, t) :: m) x =
      if id = x then some t else routineLookup m x := by
  by_cases h : id = x
  · simp [routineLookup, List.find?_cons, h]
  · simp [routineLookup, List.find?_cons, h]

/-- Lookup of the deleted key of the routine map. -/
theorem routineLookup_erase_self (m : List (String × Nat)) (id : String) :
    routineLookup (routineErase m id) id = none := by
  induction m with
  | nil => rfl
  | cons p m ih =>
    obtain ⟨k, v⟩ := p
    by_cases hk : k = id
    · simpa [routineErase, List.filter_cons, hk] using ih
    · simpa [routineErase, List.filter_cons, hk, routineLookup_cons] using ih

/-- Lookup of a surviving key after deleting another key of the routine
map. -/
theorem routineLookup_erase_other (m : List (String × Nat)) (id x : String)
    (hx : x ≠ id) :
    routineLookup (routineErase m id) x = routineLookup m x := by
  induction m with
  | nil => rfl
  | cons p m ih =>
    obtain ⟨k, v⟩ := p
    by_cases hk : k = id
    · simpa [routineErase, List.filter_cons, hk, routineLookup_cons,
        Ne.symm hx] using ih
    · by_cases hkx : k = x
      · simp [routineErase, List.filter_cons, hk, routineLookup_cons, hkx, hx]
      · simpa [routineErase, List.filter_cons, hk, routineLookup_cons, hkx] using ih

/-- A list of timers with pairwise equal handles and duplicate-free
handles has at most one element. -/
theorem timers_length_le_one (l : List Timer)
    (hconst : ∀ a ∈ l, ∀ b ∈ l, a.handle = b.handle)
    (hnd : (l.map Timer.handle).Nodup) : l.length ≤ 1 := by
  match l with
  | [] => simp
  | [a] => simp
  | a :: b :: rest =>
    exfalso
    have hab : a.handle = b.handle :=
      hconst a (List.mem_cons_self _ _)
        b (List.mem_cons_of_mem _ (List.mem_cons_self _ _))
    simp only [List.map_cons, List.nodup_cons, List.mem_cons, List.mem_map] at hnd
    exact hnd.1 (Or.inl hab)

/-- The timer invariant holds initially. -/
theorem timerInv_init : TimerInv timerInit := by
  refine ⟨?_, ?_, ?_⟩ <;> simp [timerInit]

/-- One scheduler turn preserves the timer invariant. -/
theorem timerInv_step (s : TimerState) (e : TimerEvent) (h : TimerInv s) :
    TimerInv (timerStep s e) := by
  obtain ⟨h1, h2, h3⟩ := h
  cases e with
  | startLoop id =>
    simp only [timerStep, reconnectToServer]
    by_cases hl : routineLookup s.routine id = none
    · rw [if_pos hl]
      refine ⟨?_, ?_, ?_⟩
      · intro tm htm
        rcases List.mem_cons.mp htm with heq | hmem
        · subst heq
          simp [routineLookup_cons]
        · have hne : id ≠ tm.hostId := by
            intro hcon
            rw [hcon, h1 tm hmem] at hl
            exact Option.noConfusion hl
          rw [routineLookup_cons, if_neg hne]
          exact h1 tm hmem
      · intro tm htm
        rcases List.mem_cons.mp htm with heq | hmem
        · subst heq; exact Nat.lt_succ_self _
        · exact Nat.lt_succ_of_lt (h2 tm hmem)
      · simp only [List.map_cons, List.nodup_cons]
        refine ⟨?_, h3⟩
        intro hmem
        rcases List.mem_map.mp hmem with ⟨tm, htm, hh⟩
        exact absurd hh (Nat.ne_of_lt (h2 tm htm))
    · rw [if_neg hl]
      exact ⟨h1, h2, h3⟩
  | tickSuccess id =>
    simp only [timerStep, reconnectTickCleanup]
    cases hl : routineLookup s.routine id with
    | none => exact ⟨h1, h2, h3⟩
    | some t =>
      refine ⟨?_, ?_, ?_⟩
      · intro tm htm
        have hmf := List.mem_filter.mp htm
        have hne : tm.handle ≠ t := by simpa using hmf.2
        have hhost : tm.hostId ≠ id := by
          intro hcon
          have := h1 tm hmf.1
          rw [hcon, hl] at this
          exact hne (Option.some.inj this).symm
        rw [routineLookup_erase_other s.routine id tm.hostId hhost]
        exact h1 tm hmf.1
      · intro tm htm
        exact h2 tm (List.mem_filter.mp htm).1
      · exact ((List.filter_sublist _).map Timer.handle).nodup h3
  | tickFailure id => exact ⟨h1, h2, h3⟩

/-- The timer invariant holds in every reachable state. -/
theorem timerInv_run (es : List TimerEvent) : TimerInv (timerRun es) := by
  suffices h : ∀ s, TimerInv s → TimerInv (es.foldl timerStep s) from
    h timerInit timerInv_init
  induction es with
  | nil => exact fun s hs => hs
  | cons e es ih => exact fun s hs => ih _ (timerInv_step s e hs)

/-- C2: in every reachable state of the reconnection machinery at most
one active interval timer exists per host id, and invoking
`_reconnectToServer` for a host id whose routine entry is present leaves
the state unchanged (no second timer is created). -/
theorem c2_single_timer_per_host :
    (∀ (es : List TimerEvent) (id : String),
      ((timerRun es).timers.filter (fun tm => tm.hostId == id)).length ≤ 1) ∧
    (∀ (s : TimerState) (id : String) (t : Nat),
      routineLookup s.routine id = some t → reconnectToServer s id = s) := by
  constructor
  · intro es id
    obtain ⟨h1, _, h3⟩ := timerInv_run es
    apply timers_length_le_one
    · intro a ha b hb
      have hma := List.mem_filter.mp ha
      have hmb := List.mem_filter.mp hb
      have hia : a.hostId = id := by simpa using hma.2
      have hib : b.hostId = id := by simpa using hmb.2
      have hla := h1 a hma.1
      have hlb := h1 b hmb.1
      rw [hia] at hla
      rw [hib] at hlb
      rw [hla] at hlb
      exact Option.some.inj hlb
    · exact ((List.filter_sublist _).map Timer.handle).nodup h3
  · intro s id t h
    simp only [reconnectToServer, h]
    simp

/-- Witness for C2 at a concrete trace and a concrete state with an
active routine entry. -/
theorem c2_single_timer_per_host_witness :
    ((timerRun [TimerEvent.startLoop "a", TimerEvent.startLoop "a"]).timers.filter
      (fun tm => tm.hostId == "a")).length ≤ 1 ∧
    reconnectToServer
      { timers := [{ handle := 0, hostId := "a" }],
        routine := [("a", 0)], nextHandle := 1 } "a" =
      { timers := [{ handle := 0, hostId := "a" }],
        routine := [("a", 0)], nextHandle := 1 } :=
  ⟨c2_single_timer_per_host.1 [TimerEvent.startLoop "a", TimerEvent.startLoop "a"] "a",
    c2_single_timer_per_host.2
      { timers := [{ handle := 0, hostId := "a" }],
        routine := [("a", 0)], nextHandle := 1 } "a" 0 rfl⟩

/-- addHost preserves duplicate-freeness of the registry ids. -/
theorem addHost_nodup (reg : List (Nat × Desc)) (h : Nat × Desc)
    (hnd : (reg.map Prod.fst).Nodup) : ((addHost reg h).map Prod.fst).Nodup := by
  unfold addHost removeHost
  rw [List.map_append]
  apply List.Nodup.append
  · exact ((List.filter_sublist _).map Prod.fst).nodup hnd
  · simp
  · intro x hx hx'
    rcases List.mem_map.mp hx with ⟨p, hp, hfst⟩
    have hpne : p.1 ≠ h.1 := by simpa using (List.mem_filter.mp hp).2
    have : x = h.1 := by simpa using hx'
    exact hpne (hfst.trans this)

/-- removeHost preserves duplicate-freeness of the registry ids. -/
theorem removeHost_nodup (reg : List (Nat × Desc)) (i : Nat)
    (hnd : (reg.map Prod.fst).Nodup) :
    ((removeHost reg i).map Prod.fst).Nodup :=
  ((List.filter_sublist _).map Prod.fst).nodup hnd

/-- C10: every registry operation preserves id-uniqueness of the entries,
so the registry built by any operation sequence from the empty initial
registry never holds two entries with the same id. -/
theorem c10_registry_ids_unique :
    (∀ (reg : List (Nat × Desc)) (op : RegOp),
      (reg.map Prod.fst).Nodup → ((regApply reg op).map Prod.fst).Nodup) ∧
    (∀ ops : List RegOp, ((ops.foldl regApply []).map Prod.fst).Nodup) := by
  have hstep : ∀ (reg : List (Nat × Desc)) (op : RegOp),
      (reg.map Prod.fst).Nodup → ((regApply reg op).map Prod.fst).Nodup := by
    intro reg op hnd
    cases op with
    | add h => exact addHost_nodup reg h hnd
    | remove i => exact removeHost_nodup reg i hnd
  refine ⟨hstep, ?_⟩
  intro ops
  suffices h : ∀ reg, (reg.map Prod.fst).Nodup →
      ((ops.foldl regApply reg).map Prod.fst).Nodup by
    exact h [] (by simp)
  induction ops with
  | nil => exact fun reg hnd => hnd
  | cons op ops ih => exact fun reg hnd => ih _ (hstep reg op hnd)

/-- Witness for C10 at a concrete registry and operation. -/
theorem c10_registry_ids_unique_witness :
    ((regApply [(1, { url := "u", ip := "i" })]
      (RegOp.add (2, { url := "v", ip := "j" }))).map Prod.fst).Nodup ∧
    (([RegOp.add (1, { url := "u", ip := "i" }),
       RegOp.add (1, { url := "u", ip := "i" })].foldl regApply []).map
        Prod.fst).Nodup :=
  ⟨c10_registry_ids_unique.1 [(1, { url := "u", ip := "i" })]
      (RegOp.add (2, { url := "v", ip := "j" })) (by simp),
    c10_registry_ids_unique.2
      [RegOp.add (1, { url := "u", ip := "i" }),
       RegOp.add (1, { url := "u", ip := "i" })]⟩

/-- setChain keeps the descriptor column of the chain list. -/
theorem setChain_map_fst (chains : List (Desc × ChainSt)) :
    ∀ (k : Nat) (c : ChainSt),
      (setChain chains k c).map Prod.fst = chains.map Prod.fst := by
  induction chains with
  | nil => intro k c; rfl
  | cons p rest ih =>
    intro k c
    cases k with
    | zero => simp [setChain]
    | succ k => simp [setChain, ih k c]

/-- Reading back the updated chain position. -/
theorem setChain_get?_self (chains : List (Desc × ChainSt)) :
    ∀ (k : Nat) (c : ChainSt) (d : Desc) (st : ChainSt),
      chains.get? k = some (d, st) →
      (setChain chains k c).get? k = some (d, c) := by
  induction chains with
  | nil => intro k c d st h; exact absurd h (by simp)
  | cons p rest ih =>
    intro k c d st h
    cases k with
    | zero =>
      have hp : p = (d, st) := by simpa using h
      simp [setChain, hp]
    | succ k =>
      rw [List.get?_cons_succ] at h
      simpa [setChain, List.get?_cons_succ] using ih k c d st h

/-- Reading an untouched chain position. -/
theorem setChain_get?_ne (chains : List (Desc × ChainSt)) :
    ∀ (k j : Nat) (c : ChainSt), j ≠ k →
      (setChain chains k c).get? j = chains.get? j := by
  induction chains with
  | nil => intro k j c _; rfl
  | cons p rest ih =>
    intro k j c hne
    cases k with
    | zero =>
      cases j with
      | zero => exact absurd rfl hne
      | succ j => simp [setChain, List.get?_cons_succ]
    | succ k =>
      cases j with
      | zero => simp [setChain]
      | succ j =>
        rw [List.get?_cons_succ]
        simpa [setChain, List.get?_cons_succ] using
          ih k j c (fun hc => hne (by rw [hc]))

/-- Unfolding countD over a cons cell. -/
theorem countD_cons (x : Nat × Desc) (l : List (Nat × Desc)) (d : Desc) :
    countD (x :: l) d = countD l d + (if x.2 = d then 1 else 0) := by
  simp [countD, List.countP_cons]

/-- Unfolding countD over an append. -/
theorem countD_append (l₁ l₂ : List (Nat × Desc)) (d : Desc) :
    countD (l₁ ++ l₂) d = countD l₁ d + countD l₂ d := by
  simp [countD, List.countP_append]

/-- countD vanishes exactly when no entry carries the descriptor. -/
theorem countD_eq_zero {l : List (Nat × Desc)} {d : Desc} :
    countD l d = 0 ↔ ∀ e ∈ l, e.2 ≠ d := by
  simp [countD, List.countP_eq_zero]

/-- Membership bounds countD from below. -/
theorem countD_pos_of_mem {l : List (Nat × Desc)} {e : Nat × Desc}
    (h : e ∈ l) {d : Desc} (hd : e.2 = d) : 1 ≤ countD l d :=
  List.countP_pos.mpr ⟨e, h, by simp [hd]⟩

/-- countD is monotone along sublists. -/
theorem countD_le_sublist {l₁ l₂ : List (Nat × Desc)} (h : l₁.Sublist l₂)
    (d : Desc) : countD l₁ d ≤ countD l₂ d :=
  List.Sublist.countP_le _ h

/-- In a list holding at most one entry of descriptor `d`, two members of
descriptor `d` coincide. -/
theorem countD_le_one_unique {l : List (Nat × Desc)} {d : Desc}
    (h1 : countD l d ≤ 1) {a b : Nat × Desc} (ha : a ∈ l) (hb : b ∈ l)
    (hda : a.2 = d) (hdb : b.2 = d) : a = b := by
  by_contra hne
  obtain ⟨s, t, rfl⟩ := List.append_of_mem ha
  rw [countD, List.countP_append, List.countP_cons] at h1
  simp only [hda, beq_self_eq_true, if_true] at h1
  have hbmem : b ∈ s ∨ b ∈ t := by
    rcases List.mem_append.mp hb with hs | hat
    · exact Or.inl hs
    · rcases List.mem_cons.mp hat with heq | ht
      · exact absurd heq.symm hne
      · exact Or.inr ht
  rcases hbmem with hs | ht
  · have hps : 0 < List.countP (fun h => h.2 == d) s :=
      List.countP_pos.mpr ⟨b, hs, by simp [hdb]⟩
    omega
  · have hpt : 0 < List.countP (fun h => h.2 == d) t :=
      List.countP_pos.mpr ⟨b, ht, by simp [hdb]⟩
    omega

/-- Unfolding countD over addHost. -/
theorem countD_addHost (reg : List (Nat × Desc)) (x : Nat × Desc) (d : Desc) :
    countD (addHost reg x) d =
      countD (removeHost reg x.1) d + (if x.2 = d then 1 else 0) := by
  rw [addHost, countD_append, countD_cons]
  simp [countD]

/-- Specialisation of countD_cons to a literal pair. -/
theorem countD_cons_pair (i : Nat) (dd : Desc) (l : List (Nat × Desc)) (d : Desc) :
    countD ((i, dd) :: l) d = countD l d + (if dd = d then 1 else 0) :=
  countD_cons (i, dd) l d

/-- Specialisation of countD_addHost to a literal pair. -/
theorem countD_addHost_pair (i : Nat) (dd : Desc) (l : List (Nat × Desc)) (d : Desc) :
    countD (addHost l (i, dd)) d =
      countD (removeHost l i) d + (if dd = d then 1 else 0) :=
  countD_addHost l (i, dd) d

/-- A state change touching only the chain column preserves the
invariant, provided the new status justifies the freshness obligation. -/
theorem mInv_setChain (s : MState) (k : Nat) (c : ChainSt) (h : MInv s)
    (hc : c ≠ ChainSt.done →
      ∀ d0 st0, s.chains.get? k = some (d0, st0) → countD s.objs d0 = 0) :
    MInv { s with chains := setChain s.chains k c } := by
  refine ⟨h.idBound, h.objsNd, h.regSub, h.loopSub, h.regNd, h.loopNd,
    h.objsOne, h.countLe, ?_, ?_⟩
  · intro j d' c' hj hcne
    by_cases hjk : j = k
    · subst hjk
      cases hg : s.chains.get? j with
      | none =>
        have hlen : s.chains.length ≤ j := List.get?_eq_none.mp hg
        have hlen' : (setChain s.chains j c).length ≤ j := by
          have hlenEq : (setChain s.chains j c).length = s.chains.length := by
            have := congrArg List.length (setChain_map_fst s.chains j c)
            simpa using this
          rw [hlenEq]
          exact hlen
        rw [List.get?_eq_none.mpr hlen'] at hj
        exact Option.noConfusion hj
      | some p =>
        obtain ⟨d0, st0⟩ := p
        rw [setChain_get?_self s.chains j c d0 st0 hg] at hj
        injection hj with hj'
        injection hj' with hd0 hc0
        subst hd0
        subst hc0
        exact hc hcne _ st0 hg
    · rw [setChain_get?_ne s.chains k j c hjk] at hj
      exact h.chainFresh j d' c' hj hcne
  · rw [setChain_map_fst]
    exact h.cfgNd

/-- The attempt turn preserves the invariant. -/
theorem mInv_attempt (m : Nat) (s : MState) (k : Nat) (h : MInv s) :
    MInv (mStep m s (MEvent.attempt k)) := by
  cases hg : s.chains.get? k with
  | none => simpa only [mStep, hg] using h
  | some p =>
    obtain ⟨d, st⟩ := p
    cases st with
    | idle r =>
      simp only [mStep, hg]
      by_cases hr : r < m
      · rw [if_pos hr]
        by_cases hs : hostStarted s.reg d.url d.ip = true
        · rw [if_pos hs]
          exact mInv_setChain s k ChainSt.done h (fun hcd => absurd rfl hcd)
        · rw [if_neg hs]
          refine mInv_setChain s k (ChainSt.connecting r) h ?_
          intro _ d0 st0 hg0
          rw [hg] at hg0
          injection hg0 with hg0'
          injection hg0' with hd0 _
          subst hd0
          exact h.chainFresh k d (ChainSt.idle r) hg (fun hcon => ChainSt.noConfusion hcon)
      · rw [if_neg hr]
        exact mInv_setChain s k ChainSt.done h (fun hcd => absurd rfl hcd)
    | connecting r => simpa only [mStep, hg] using h
    | done => simpa only [mStep, hg] using h

/-- The connect-failure turn preserves the invariant. -/
theorem mInv_connectFail (m : Nat) (s : MState) (k : Nat) (h : MInv s) :
    MInv (mStep m s (MEvent.connectFail k)) := by
  cases hg : s.chains.get? k with
  | none => simpa only [mStep, hg] using h
  | some p =>
    obtain ⟨d, st⟩ := p
    cases st with
    | idle r => simpa only [mStep, hg] using h
    | done => simpa only [mStep, hg] using h
    | connecting r =>
      simp only [mStep, hg]
      refine mInv_setChain s k (ChainSt.idle (r + 1)) h ?_
      intro _ d0 st0 hg0
      rw [hg] at hg0
      injection hg0 with hg0'
      injection hg0' with hd0 _
      subst hd0
      exact h.chainFresh k d (ChainSt.connecting r) hg (fun hcon => ChainSt.noConfusion hcon)

/-- The successful-connect turn preserves the invariant. -/
theorem mInv_connectOk (m : Nat) (s : MState) (k : Nat) (h : MInv s) :
    MInv (mStep m s (MEvent.connectOk k)) := by
  cases hg : s.chains.get? k with
  | none => simpa only [mStep, hg] using h
  | some p =>
    obtain ⟨d, st⟩ := p
    cases st with
    | idle r => simpa only [mStep, hg] using h
    | done => simpa only [mStep, hg] using h
    | connecting r =>
      simp only [mStep, hg]
      have hfresh : countD s.objs d = 0 :=
        h.chainFresh k d (ChainSt.connecting r) hg
          (fun hcon => ChainSt.noConfusion hcon)
      have hreg0 : countD s.reg d = 0 ∧ countD s.loops d = 0 := by
        have := h.countLe d
        omega
      have hrm : removeHost s.reg s.nextId = s.reg := by
        apply List.filter_eq_self.mpr
        intro e he
        have : e.1 < s.nextId := h.idBound e (h.regSub e he)
        simp [Nat.ne_of_lt this]
      refine ⟨?_, ?_, ?_, ?_, ?_, ?_, ?_, ?_, ?_, ?_⟩
      · intro o ho
        rcases List.mem_cons.mp ho with rfl | hmem
        · exact Nat.lt_succ_self _
        · exact Nat.lt_succ_of_lt (h.idBound o hmem)
      · simp only [List.map_cons, List.nodup_cons]
        refine ⟨?_, h.objsNd⟩
        intro hmem
        rcases List.mem_map.mp hmem with ⟨o, ho, hfst⟩
        exact absurd hfst (Nat.ne_of_lt (h.idBound o ho))
      · intro e he
        rw [addHost, hrm] at he
        rcases List.mem_append.mp he with hmem | hnew
        · exact List.mem_cons_of_mem _ (h.regSub e hmem)
        · have : e = (s.nextId, d) := by simpa using hnew
          rw [this]
          exact List.mem_cons_self _ _
      · intro l hl
        exact List.mem_cons_of_mem _ (h.loopSub l hl)
      · exact addHost_nodup s.reg (s.nextId, d) h.regNd
      · exact h.loopNd
      · intro d'
        rw [countD_cons]
        by_cases hd : d = d'
        · subst hd
          simp [hfresh]
        · rw [if_neg hd]
          simpa using h.objsOne d'
      · intro d'
        dsimp only
        rw [countD_addHost_pair, hrm, countD_cons_pair]
        by_cases hd : d = d'
        · subst hd
          rw [if_pos rfl]
          have h1 := hreg0.1
          have h2 := hreg0.2
          omega
        · rw [if_neg hd]
          have := h.countLe d'
          omega
      · intro j d' c' hj hcne
        by_cases hjk : j = k
        · subst hjk
          rw [setChain_get?_self s.chains j ChainSt.done d (ChainSt.connecting r) hg] at hj
          injection hj with hj'
          injection hj' with hd' hc'
          exact absurd hc'.symm hcne
        · rw [setChain_get?_ne s.chains k j ChainSt.done hjk] at hj
          have hold := h.chainFresh j d' c' hj hcne
          rw [countD_cons, hold]
          have hdd : d ≠ d' := by
            intro hc
            subst hc
            have hj' : (s.chains.map Prod.fst).get? j = some d := by
              rw [List.get?_map, hj]
              rfl
            have hk' : (s.chains.map Prod.fst).get? k = some d := by
              rw [List.get?_map, hg]
              rfl
            have hlt : j < (s.chains.map Prod.fst).length := by
              rcases List.get?_eq_some.mp hj' with ⟨hl, _⟩
              exact hl
            exact hjk (List.get?_inj hlt h.cfgNd (hj'.trans hk'.symm))
          simp [hdd]
      · rw [setChain_map_fst]
        exact h.cfgNd

/-- The disconnect turn preserves the invariant. -/
theorem mInv_disconnect (m : Nat) (s : MState) (id : Nat) (h : MInv s) :
    MInv (mStep m s (MEvent.disconnect id)) := by
  cases hf : s.objs.find? (fun o => o.1 == id) with
  | none => simpa only [mStep, hf] using h
  | some p =>
    obtain ⟨i0, d⟩ := p
    have hi0 : i0 = id := by simpa using List.find?_some hf
    subst hi0
    have hmem : ((i0 : Nat), d) ∈ s.objs := List.mem_of_find?_eq_some hf
    simp only [mStep, hf]
    by_cases hloop : (s.loops.find? (fun l => l.1 == i0)).isNone = true
    · rw [if_pos hloop]
      have hnoloop : ∀ l ∈ s.loops, l.1 ≠ i0 := by
        intro l hl hc
        have := List.find?_eq_none.mp (Option.isNone_iff_eq_none.mp hloop) l hl
        simp [hc] at this
      refine ⟨h.idBound, h.objsNd, ?_, ?_, removeHost_nodup s.reg i0 h.regNd,
        ?_, h.objsOne, ?_, h.chainFresh, h.cfgNd⟩
      · intro e he
        exact h.regSub e (List.mem_filter.mp he).1
      · intro l hl
        rcases List.mem_cons.mp hl with rfl | hmem'
        · exact hmem
        · exact h.loopSub l hmem'
      · simp only [List.map_cons, List.nodup_cons]
        refine ⟨?_, h.loopNd⟩
        intro hmem'
        rcases List.mem_map.mp hmem' with ⟨l, hl, hfst⟩
        exact hnoloop l hl hfst
      · intro d'
        dsimp only
        rw [countD_cons_pair]
        by_cases hd : d = d'
        · subst hd
          have hrm0 : countD (removeHost s.reg i0) d = 0 := by
            rw [countD_eq_zero]
            intro e he hc
            have hereg := List.mem_filter.mp he
            have heobj := h.regSub e hereg.1
            have heq : e = (i0, d) :=
              countD_le_one_unique (h.objsOne d) heobj hmem hc rfl
            have he1 : e.1 = i0 := by rw [heq]
            simp [he1] at hereg
          have hl0 : countD s.loops d = 0 := by
            rw [countD_eq_zero]
            intro l hl hc
            have hlobj := h.loopSub l hl
            have heq : l = (i0, d) :=
              countD_le_one_unique (h.objsOne d) hlobj hmem hc rfl
            exact hnoloop l hl (by rw [heq])
          have hobj1 : 1 ≤ countD s.objs d := countD_pos_of_mem hmem rfl
          rw [if_pos rfl, hrm0, hl0]
          omega
        · rw [if_neg hd]
          have hrm : countD (removeHost s.reg i0) d' ≤ countD s.reg d' :=
            countD_le_sublist (List.filter_sublist s.reg) d'
          have := h.countLe d'
          omega
    · rw [if_neg hloop]
      refine ⟨h.idBound, h.objsNd, ?_, h.loopSub, removeHost_nodup s.reg i0 h.regNd,
        h.loopNd, h.objsOne, ?_, h.chainFresh, h.cfgNd⟩
      · intro e he
        exact h.regSub e (List.mem_filter.mp he).1
      · intro d'
        dsimp only
        have hrm : countD (removeHost s.reg i0) d' ≤ countD s.reg d' :=
          countD_le_sublist (List.filter_sublist s.reg) d'
        have := h.countLe d'
        omega

/-- The successful reconnection-tick turn preserves the invariant. -/
theorem mInv_loopTickOk (m : Nat) (s : MState) (id : Nat) (h : MInv s) :
    MInv (mStep m s (MEvent.loopTickOk id)) := by
  cases hf : s.loops.find? (fun l => l.1 == id) with
  | none => simpa only [mStep, hf] using h
  | some p =>
    obtain ⟨i0, d⟩ := p
    have hi0 : i0 = id := by simpa using List.find?_some hf
    subst hi0
    have hmemL : ((i0 : Nat), d) ∈ s.loops := List.mem_of_find?_eq_some hf
    have hmemO : ((i0 : Nat), d) ∈ s.objs := h.loopSub _ hmemL
    simp only [mStep, hf]
    have hrm0 : countD (removeHost s.reg i0) d = 0 := by
      rw [countD_eq_zero]
      intro e he hc
      have hereg := List.mem_filter.mp he
      have heobj := h.regSub e hereg.1
      have heq : e = (i0, d) :=
        countD_le_one_unique (h.objsOne d) heobj hmemO hc rfl
      have he1 : e.1 = i0 := by rw [heq]
      simp [he1] at hereg
    have hlf0 : countD (s.loops.filter (fun l => l.1 != i0)) d = 0 := by
      rw [countD_eq_zero]
      intro l hl hc
      have hlf := List.mem_filter.mp hl
      have hlobj := h.loopSub l hlf.1
      have heq : l = (i0, d) :=
        countD_le_one_unique (h.objsOne d) hlobj hmemO hc rfl
      have hl1 : l.1 = i0 := by rw [heq]
      simp [hl1] at hlf
    have hobj1 : 1 ≤ countD s.objs d := countD_pos_of_mem hmemO rfl
    refine ⟨h.idBound, h.objsNd, ?_, ?_, addHost_nodup s.reg (i0, d) h.regNd,
      ?_, h.objsOne, ?_, h.chainFresh, h.cfgNd⟩
    · intro e he
      rcases List.mem_append.mp he with hmem | hnew
      · exact h.regSub e (List.mem_filter.mp hmem).1
      · have : e = (i0, d) := by simpa using hnew
        rw [this]
        exact hmemO
    · intro l hl
      exact h.loopSub l (List.mem_filter.mp hl).1
    · exact ((List.filter_sublist _).map Prod.fst).nodup h.loopNd
    · intro d'
      dsimp only
      rw [countD_addHost_pair]
      by_cases hd : d = d'
      · subst hd
        rw [if_pos rfl, hrm0, hlf0]
        omega
      · rw [if_neg hd]
        have hsub1 : countD (removeHost s.reg i0) d' ≤ countD s.reg d' :=
          countD_le_sublist (List.filter_sublist s.reg) d'
        have hsub2 : countD (s.loops.filter (fun l => l.1 != i0)) d' ≤
            countD s.loops d' :=
          countD_le_sublist (List.filter_sublist s.loops) d'
        have := h.countLe d'
        omega

/-- One scheduler turn of the global model preserves the invariant. -/
theorem mInv_step (m : Nat) (s : MState) (e : MEvent) (h : MInv s) :
    MInv (mStep m s e) := by
  cases e with
  | attempt k => exact mInv_attempt m s k h
  | connectOk k => exact mInv_connectOk m s k h
  | connectFail k => exact mInv_connectFail m s k h
  | disconnect id => exact mInv_disconnect m s id h
  | loopTickOk id => exact mInv_loopTickOk m s id h
  | loopTickFail id => exact h

/-- The invariant holds initially for a duplicate-free configuration. -/
theorem mInv_init (cfg : List Desc) (hnd : cfg.Nodup) : MInv (mInit cfg) := by
  refine ⟨?_, ?_, ?_, ?_, ?_, ?_, ?_, ?_, ?_, ?_⟩
  · intro o ho
    exact absurd ho (by simp [mInit])
  · simp [mInit]
  · intro e he
    exact absurd he (by simp [mInit])
  · intro l hl
    exact absurd hl (by simp [mInit])
  · simp [mInit]
  · simp [mInit]
  · intro d
    simp [mInit, countD]
  · intro d
    simp [mInit, countD]
  · intro k d c _ _
    simp [mInit, countD]
  · simp only [mInit]
    rw [List.map_map]
    have hcomp : (Prod.fst ∘ fun d : Desc => (d, ChainSt.idle 0)) = id :=
      funext (fun d => rfl)
    rw [hcomp, List.map_id]
    exact hnd

/-- The invariant holds in every reachable state of the global model. -/
theorem mInv_run (m : Nat) (cfg : List Desc) (es : List MEvent)
    (hnd : cfg.Nodup) : MInv (mRun m cfg es) := by
  suffices h : ∀ s, MInv s → MInv (es.foldl (mStep m) s) from
    h (mInit cfg) (mInv_init cfg hnd)
  induction es with
  | nil => exact fun s hs => hs
  | cons e es ih => exact fun s hs => ih _ (mInv_step m s e hs)

/-- C5 counterexample: with a configuration holding the same (url, ip)
descriptor twice, the interleaving in which both startup chains pass the
`_hostStarted` check before either raced connect settles registers two
hosts with the same (url, ip) pair — the claimed registry invariant fails
for this configured host list. -/
theorem c5_duplicate_descriptor_counterexample :
    countD (mRun 2 [{ url := "u", ip := "p" }, { url := "u", ip := "p" }]
      [MEvent.attempt 0, MEvent.attempt 1, MEvent.connectOk 0,
        MEvent.connectOk 1]).reg { url := "u", ip := "p" } = 2 := by
  decide

/-- C5 amended: provided the configured host list holds pairwise distinct
(url, address) descriptors, every reachable state of the system (any
interleaving of startup connects, disconnects and reconnect-loop
successes) keeps at most one registry entry per (url, address) pair. -/
theorem c5_registry_pair_unique_amended (maxRetries : Nat) (cfg : List Desc)
    (hnd : cfg.Nodup) (es : List MEvent) (d : Desc) :
    countD (mRun maxRetries cfg es).reg d ≤ 1 := by
  have hinv := mInv_run maxRetries cfg es hnd
  have h1 := hinv.countLe d
  have h2 := hinv.objsOne d
  omega

/-- Witness for the amended C5 at a concrete configuration and trace. -/
theorem c5_registry_pair_unique_amended_witness :
    countD (mRun 1 [{ url := "u", ip := "p" }]
      [MEvent.attempt 0, MEvent.connectOk 0, MEvent.disconnect 0,
        MEvent.loopTickOk 0]).reg { url := "u", ip := "p" } ≤ 1 :=
  c5_registry_pair_unique_amended 1 [{ url := "u", ip := "p" }]
    (List.nodup_singleton _)
    [MEvent.attempt 0, MEvent.connectOk 0, MEvent.disconnect 0,
      MEvent.loopTickOk 0] { url := "u", ip := "p" }

end KHM
